import Mathlib

/-!
Verification of the markdown-catalog store (`scripts/catalog.py`).

The Python module is a line-oriented parser and editor for a semi-structured
markdown document.  Strings are modelled as their character lists (`String`
in Lean is a structure over `List Char`), and every Python string primitive
used by the source (`str.strip`, `str.split`, `str.startswith`, `in`,
`str.join`, `int(...)`, `re.sub` for the one fixed pattern) is given an
explicit executable counterpart below.  The catalog functions are then
direct transcriptions of the Python source.
-/

/-! ### Python string primitives over character lists -/

/-- The characters stripped by Python `str.strip()` (ASCII whitespace). -/
def isPySpace (c : Char) : Bool :=
  c = ' ' || c = '\t' || c = '\n' || c = '\r' || c = '\x0b' || c = '\x0c'

/-- Python `str.strip()`. -/
def pyStripL (cs : List Char) : List Char :=
  ((cs.dropWhile isPySpace).reverse.dropWhile isPySpace).reverse

/-- Python `str.strip(ch)` for a single strip character. -/
def pyStripCharL (ch : Char) (cs : List Char) : List Char :=
  ((cs.dropWhile (· = ch)).reverse.dropWhile (· = ch)).reverse

/-- Python `s.split(sep)` for a one-character separator (keeps empty pieces). -/
def splitCharL (sep : Char) : List Char → List (List Char)
  | [] => [[]]
  | c :: rest =>
    match splitCharL sep rest with
    | [] => [[]]
    | p :: ps => if c = sep then [] :: p :: ps else (c :: p) :: ps

/-- Python `s.split(sep, 1)` when the separator occurs: the two pieces
around the first occurrence of `sep` (`none` when `sep` is absent). -/
def splitFirstL (sep : Char) : List Char → Option (List Char × List Char)
  | [] => none
  | c :: rest =>
    if c = sep then some ([], rest)
    else (splitFirstL sep rest).map (fun p => (c :: p.1, p.2))

/-- Python `sep.join(pieces)`. -/
def joinL (sep : List Char) : List (List Char) → List Char
  | [] => []
  | [p] => p
  | p :: q :: ps => p ++ sep ++ joinL sep (q :: ps)

/-- Python substring test `needle in hay`. -/
def containsSub : List Char → List Char → Bool
  | needle, [] => needle.isEmpty
  | needle, c :: t => needle.isPrefixOf (c :: t) || containsSub needle t

/-- Numeric value of a decimal digit character. -/
def digitVal (c : Char) : Nat := c.toNat - '0'.toNat

/-- Decimal digits of a natural number, most significant first
(fuel-driven so that the kernel can evaluate it; `fuel = n + 1` always
suffices because the argument shrinks by a factor of ten each step). -/
def natToDigitsAux : Nat → Nat → List Char → List Char
  | 0, _, acc => acc
  | fuel + 1, n, acc =>
    if n < 10 then Nat.digitChar (n % 10) :: acc
    else natToDigitsAux fuel (n / 10) (Nat.digitChar (n % 10) :: acc)

/-- Python `str(n)` for a natural number. -/
def pyNatRepr (n : Nat) : List Char := natToDigitsAux (n + 1) n []

/-- Python `str(v)` (an f-string interpolation) for an integer. -/
def pyIntReprL (v : Int) : List Char :=
  if v < 0 then '-' :: pyNatRepr v.natAbs else pyNatRepr v.toNat

/-- Digit run with single underscores allowed between digits, as accepted by
Python `int`; `acc` is the value of the digits already consumed. -/
def pyDigitsRun : List Char → Nat → Option Nat
  | [], acc => some acc
  | c :: rest, acc =>
    if c = '_' then
      match rest with
      | [] => none
      | c2 :: rest2 =>
        if c2.isDigit then pyDigitsRun rest2 (10 * acc + digitVal c2) else none
    else if c.isDigit then pyDigitsRun rest (10 * acc + digitVal c)
    else none

/-- Digit run that must start with a digit (the part of a Python integer
literal after the optional sign). -/
def pyDigitsStart : List Char → Option Nat
  | [] => none
  | c :: rest => if c.isDigit then pyDigitsRun rest (digitVal c) else none

/-- Python `int(s)`: surrounding whitespace, an optional sign, then a digit
run; anything else raises `ValueError`, modelled as `none`. -/
def pyIntL (cs : List Char) : Option Int :=
  match pyStripL cs with
  | [] => none
  | c :: rest =>
    if c = '-' then (pyDigitsStart rest).map (fun n => -(n : Int))
    else if c = '+' then (pyDigitsStart rest).map (fun n => (n : Int))
    else (pyDigitsStart (c :: rest)).map (fun n => (n : Int))

/-- One match attempt of the regex `\s*\([^)]+\)` at the head of `cs`:
returns the remainder after the match when it succeeds. -/
def matchParen (cs : List Char) : Option (List Char) :=
  match cs.dropWhile isPySpace with
  | '(' :: r2 =>
    match splitFirstL ')' r2 with
    | some (inside, after) => if inside.isEmpty then none else some after
    | none => none
  | _ => none

/-- Left-to-right scan of `re.sub(r'\s*\([^)]+\)', '', s)`: each match is
deleted and scanning resumes after it.  Every step consumes at least one
character, so `fuel = length` suffices. -/
def reSubParenAux : Nat → List Char → List Char
  | 0, cs => cs
  | _, [] => []
  | fuel + 1, c :: rest =>
    match matchParen (c :: rest) with
    | some after => reSubParenAux fuel after
    | none => c :: reSubParenAux fuel rest

/-- Python `re.sub(r'\s*\([^)]+\)', '', s)`. -/
def reSubParen (cs : List Char) : List Char := reSubParenAux cs.length cs

/-! ### `catalog.py` definitions -/

/-- `parse_allocated` (catalog.py:62): parse the `Allocated` field into a
dict, modelled as an insertion-ordered association list. -/
def dictInsert (k : String) (v : Int) : List (String × Int) → List (String × Int)
  | [] => [(k, v)]
  | (k2, v2) :: rest => if k2 = k then (k2, v) :: rest else (k2, v2) :: dictInsert k v rest

/-- Body of the `parse_allocated` loop for one comma-separated piece. -/
def allocStep (d : List (String × Int)) (part : List Char) : List (String × Int) :=
  match splitFirstL ':' (pyStripL part) with
  | none => d
  | some (name, portStr) =>
    match pyIntL portStr with
    | none => d
    | some v => dictInsert ⟨pyStripL name⟩ v d

/-- `parse_allocated` (catalog.py:62). -/
def parse_allocated (cs : List Char) : List (String × Int) :=
  if cs.isEmpty then []
  else (splitCharL ',' cs).foldl allocStep []

/-- The sort key of `format_allocated`: Python `sorted(..., key=lambda x: x[1])`. -/
def portLe (a b : String × Int) : Prop := a.2 ≤ b.2

instance : DecidableRel portLe := fun a b => inferInstanceAs (Decidable (a.2 ≤ b.2))

instance : IsTotal (String × Int) portLe := ⟨fun a b => Int.le_total a.2 b.2⟩

instance : IsTrans (String × Int) portLe := ⟨fun _ _ _ h1 h2 => le_trans h1 h2⟩

/-- The rendered pair `f"\x7bname\x7d:\x7bport\x7d"`. -/
def allocPairStr (p : String × Int) : List Char := p.1.data ++ ':' :: pyIntReprL p.2

/-- `format_allocated` (catalog.py:84): pairs sorted by port
(Python's `sorted` is a stable sort, as is insertion sort), joined by a
comma and a space. -/
def format_allocated (d : List (String × Int)) : List Char :=
  if d.isEmpty then []
  else joinL (", ".data) ((List.insertionSort portLe d).map allocPairStr)

/-- `parse_port_range` (catalog.py:96): `(base_port, range_size)`. -/
def parse_port_range (cs : List Char) : Option Int × Option Int :=
  if cs.isEmpty then (none, none)
  else
    let s := pyStripL (reSubParen cs)
    if containsSub ['-'] s then
      match splitCharL '-' s with
      | p0 :: p1 :: _ =>
        match pyIntL p0, pyIntL p1 with
        | some a, some b => (some a, some (b - a + 1))
        | _, _ => (none, none)
      | _ => (none, none)
    else
      match pyIntL s with
      | some p => (some p, some 10)
      | none => (none, none)

/-- One parsed catalog entry: the dict built by `parse_entries`
(catalog.py:163), with `command` for the dynamically added key. -/
structure Entry where
  name : String
  category : String
  type : Option String
  path : Option String
  ports : Option String
  allocated : Option String
  stack : Option String
  github : Option String
  status : Option String
  description : Option String
  line_start : Nat
  base_port : Option Int
  port_range : Option Int
  allocated_dict : List (String × Int)
  command : Option String
deriving DecidableEq, Repr

/-- The fresh entry dict opened at a `### Name` heading (catalog.py:163). -/
def newEntry (name category : String) (i : Nat) : Entry :=
  { name := name, category := category, type := none, path := none,
    ports := none, allocated := none, stack := none, github := none,
    status := none, description := none, line_start := i,
    base_port := none, port_range := none, allocated_dict := [], command := none }

def backquote : Char := Char.ofNat 96

/-- The cells of a table row: `line.split('|')[1:-1]`, each stripped. -/
def rowCells (line : List Char) : List (List Char) :=
  (((splitCharL '|' line).drop 1).dropLast).map pyStripL

/-- The table-property branch of the `parse_entries` loop (catalog.py:180-204). -/
def applyRow (e : Entry) (line : List Char) : Entry :=
  match rowCells line with
  | [key, value] =>
    if key.map Char.toLower = "type".data then { e with type := some ⟨value⟩ }
    else if key.map Char.toLower = "path".data then
      { e with path := some ⟨pyStripCharL backquote value⟩ }
    else if key.map Char.toLower = "ports".data then
      { e with ports := some ⟨value⟩,
               base_port := (parse_port_range value).1,
               port_range := (parse_port_range value).2 }
    else if key.map Char.toLower = "allocated".data then
      { e with allocated := some ⟨value⟩, allocated_dict := parse_allocated value }
    else if key.map Char.toLower = "stack".data then { e with stack := some ⟨value⟩ }
    else if key.map Char.toLower = "github".data then { e with github := some ⟨value⟩ }
    else if key.map Char.toLower = "status".data then { e with status := some ⟨value⟩ }
    else if key.map Char.toLower = "command".data then { e with command := some ⟨value⟩ }
    else e
  | _ => e

/-- The hard-coded stop sections of `parse_entries` (catalog.py:137). -/
def stopSections : List String := ["Quick Reference", "Entry Format Reference"]

/-- Python truthiness of the `current_category` variable (`None` and the
empty string are falsy). -/
def pyTruthy : Option String → Bool
  | none => false
  | some s => !s.data.isEmpty

/-- The `while` loop of `parse_entries` (catalog.py:142-206): `i` is the
line index, `cat` the current category, `cur` the open entry, `acc` the
entries already closed.  A stop section breaks out of the loop; the final
open entry is appended after the loop (catalog.py:209). -/
def parseLines (cats : List String) : List (List Char) → Nat → Option String →
    Option Entry → List Entry → List Entry
  | [], _, _, cur, acc => acc ++ cur.toList
  | line :: rest, i, cat, cur, acc =>
    if "## ".data.isPrefixOf line && !("### ".data.isPrefixOf line) then
      if stopSections.any (fun s => s.data = pyStripL (line.drop 3)) then
        acc ++ cur.toList
      else if cats.any (fun c => c.data.map Char.toUpper =
          (pyStripL (line.drop 3)).map Char.toUpper) then
        parseLines cats rest (i + 1) (some ⟨(pyStripL (line.drop 3)).map Char.toUpper⟩) cur acc
      else parseLines cats rest (i + 1) cat cur acc
    else if "### ".data.isPrefixOf line && pyTruthy cat then
      parseLines cats rest (i + 1) cat
        (some (newEntry ⟨pyStripL (line.drop 4)⟩ (cat.getD "") i)) (acc ++ cur.toList)
    else if cur.isSome && "| ".data.isPrefixOf line then
      parseLines cats rest (i + 1) cat (cur.map (fun e => applyRow e line)) acc
    else parseLines cats rest (i + 1) cat cur acc

/-- `parse_entries` (catalog.py:123).  The category-name set comes from the
external configuration and is passed as `cats`. -/
def parse_entries (cats : List String) (content : String) : List Entry :=
  parseLines cats (splitCharL '\n' content.data) 0 none none []

/-- The case-insensitive entry lookup used by `update_entry_allocated`
(catalog.py:272-276) and `get_entry_by_name` (catalog.py:229-231). -/
def findEntry (entries : List Entry) (nm : String) : Option Entry :=
  entries.find? (fun e => e.name.data.map Char.toLower = nm.data.map Char.toLower)

/-- A record of `get_all_allocated_ports` (catalog.py:248-253). -/
structure PortRecord where
  port : Int
  name : String
  project : String
  category : String
deriving DecidableEq, Repr

def recLe (a b : PortRecord) : Prop := a.port ≤ b.port

instance : DecidableRel recLe := fun a b => inferInstanceAs (Decidable (a.port ≤ b.port))

instance : IsTotal PortRecord recLe := ⟨fun a b => Int.le_total a.port b.port⟩

instance : IsTrans PortRecord recLe := ⟨fun _ _ _ h1 h2 => le_trans h1 h2⟩

/-- The flattening loop of `get_all_allocated_ports` (catalog.py:243-253). -/
def flattenAllocs (entries : List Entry) : List PortRecord :=
  (entries.map (fun e => e.allocated_dict.map
    (fun p => PortRecord.mk p.2 p.1 e.name e.category))).flatten

/-- `get_all_allocated_ports` (catalog.py:235): all allocation records,
sorted ascending by port (`sorted(ports, key=lambda x: x['port'])`). -/
def get_all_allocated_ports (cats : List String) (content : String) : List PortRecord :=
  List.insertionSort recLe (flattenAllocs (parse_entries cats content))

/-- The two distinct `return False` reasons of `update_entry_allocated`,
plus the empty-document guard (catalog.py:267-269). -/
inductive UpdateError where
  | noCatalog
  | entryNotFound
  | noInsertionPoint
deriving DecidableEq, Repr

/-- The raw-line rescan of `update_entry_allocated` (catalog.py:292-306):
returns `(allocated_line_idx, ports_line_idx, table_end_idx)`.  The first
`if` of the loop body re-fires on *any* `### ` heading containing the
entry name as a substring, skipping the break. -/
def scanLoop (nm : List Char) : List (Nat × List Char) → Bool → Option Nat →
    Option Nat → Option Nat → Option Nat × Option Nat × Option Nat
  | [], _, ai, pi, ti => (ai, pi, ti)
  | (i, line) :: rest, inE, ai, pi, ti =>
    if "### ".data.isPrefixOf line && containsSub nm line then
      scanLoop nm rest true ai pi ti
    else if inE then
      if "### ".data.isPrefixOf line || "## ".data.isPrefixOf line then (ai, pi, ti)
      else
        scanLoop nm rest true
          (if "| Allocated |".data.isPrefixOf line then some i else ai)
          (if "| Ports |".data.isPrefixOf line then some i else pi)
          (if "|".data.isPrefixOf line && !containsSub "Property".data line &&
              !containsSub "----".data line then some i else ti)
    else scanLoop nm rest false ai pi ti

/-- `update_entry_allocated` (catalog.py:258): rewrite the `Allocated`
row of one entry.  The document text is passed in and the new text is
returned (the file read/write of the source is the caller's I/O). -/
def update_entry_allocated (cats : List String) (content : String)
    (entry_name : String) (allocated_dict : List (String × Int)) :
    Except UpdateError String :=
  if content.data.isEmpty then .error .noCatalog
  else
    match findEntry (parse_entries cats content) entry_name with
    | none => .error .entryNotFound
    | some entry =>
      let allocated_str := format_allocated allocated_dict
      let lines := splitCharL '\n' content.data
      let newLine := "| Allocated | ".data ++ allocated_str ++ " |".data
      match scanLoop entry.name.data lines.enum false none none none with
      | (some idx, _, _) => .ok ⟨joinL ['\n'] (lines.set idx newLine)⟩
      | (none, some idx, _) => .ok ⟨joinL ['\n'] (lines.insertIdx (idx + 1) newLine)⟩
      | (none, none, _) => .error .noInsertionPoint


/-! ### Specification-side definitions used by the claims -/

/-- Value of a most-significant-first digit string. -/
def digitsVal (cs : List Char) : Nat := cs.foldl (fun a c => 10 * a + digitVal c) 0

/-- The canonical rendering of an allocation pair list:
`label:port` pairs joined by a comma and a space, in list order. -/
def renderAllocL (l : List (String × Int)) : List Char :=
  joinL (", ".data) (l.map allocPairStr)

/-- A pair list in the canonical form of the `Allocated` field: ports
strictly ascending, labels pairwise distinct, and label characters free of
commas, colons and whitespace. -/
def canonAlloc (l : List (String × Int)) : Prop :=
  l.Pairwise (fun a b => a.2 < b.2) ∧
  l.Pairwise (fun a b => a.1 ≠ b.1) ∧
  ∀ p ∈ l, ∀ c ∈ p.1.data, c ≠ ',' ∧ c ≠ ':' ∧ isPySpace c = false

instance (l : List (String × Int)) : Decidable (canonAlloc l) := by
  unfold canonAlloc
  infer_instance

/-- An entry with its `line_start` normalised away (line offsets shift when
lines are inserted or removed, all other fields are positional-independent). -/
def stripLS (e : Entry) : Entry := { e with line_start := 0 }

/-- A line that breaks the `parse_entries` scan (catalog.py:150-151):
a `## ` heading whose stripped remainder is exactly a stop section. -/
def isStopLine (l : List Char) : Bool :=
  "## ".data.isPrefixOf l && !("### ".data.isPrefixOf l) &&
    stopSections.any (fun s => s.data = pyStripL (l.drop 3))

/-- A `## ` heading recognised as a category (catalog.py:154). -/
def isCategoryLine (cats : List String) (l : List Char) : Bool :=
  "## ".data.isPrefixOf l && !("### ".data.isPrefixOf l) &&
    cats.any (fun c => c.data.map Char.toUpper = (pyStripL (l.drop 3)).map Char.toUpper)

/-- The table keys recognised by `parse_entries` (catalog.py:185-204). -/
def knownKeys : List (List Char) :=
  ["type".data, "path".data, "ports".data, "allocated".data, "stack".data,
   "github".data, "status".data, "command".data]

/-- A table row that `parse_entries` silently skips: it starts with `| `
but is malformed (not exactly two cells) or has an unrecognised key. -/
def isSkippedRow (l : List Char) : Bool :=
  "| ".data.isPrefixOf l &&
    (match rowCells l with
     | [key, _] => !(knownKeys.any (fun k => k = key.map Char.toLower))
     | _ => true)

/-- A `## ` heading that is neither a stop section nor a recognised
category: `parse_entries` ignores it without resetting any state. -/
def isUnrelatedHeading (cats : List String) (l : List Char) : Bool :=
  "## ".data.isPrefixOf l && !("### ".data.isPrefixOf l) &&
    !(stopSections.any (fun s => s.data = pyStripL (l.drop 3))) &&
    !(cats.any (fun c => c.data.map Char.toUpper = (pyStripL (l.drop 3)).map Char.toUpper))

/-! ### Helper lemmas: digit characters and numerals -/

theorem digitChar_isDigit {d : Nat} (h : d < 10) : (Nat.digitChar d).isDigit = true := by
  interval_cases d <;> decide

theorem digitVal_digitChar {d : Nat} (h : d < 10) : digitVal (Nat.digitChar d) = d := by
  interval_cases d <;> decide

theorem isDigit_ne_comma {c : Char} (h : c.isDigit = true) : c ≠ ',' := by
  intro he; subst he; exact absurd h (by decide)

theorem isDigit_ne_colon {c : Char} (h : c.isDigit = true) : c ≠ ':' := by
  intro he; subst he; exact absurd h (by decide)

theorem isDigit_ne_dash {c : Char} (h : c.isDigit = true) : c ≠ '-' := by
  intro he; subst he; exact absurd h (by decide)

theorem isDigit_ne_lparen {c : Char} (h : c.isDigit = true) : c ≠ '(' := by
  intro he; subst he; exact absurd h (by decide)

theorem isDigit_ne_underscore {c : Char} (h : c.isDigit = true) : c ≠ '_' := by
  intro he; subst he; exact absurd h (by decide)

theorem isDigit_ne_plus {c : Char} (h : c.isDigit = true) : c ≠ '+' := by
  intro he; subst he; exact absurd h (by decide)

theorem isDigit_ne_nl {c : Char} (h : c.isDigit = true) : c ≠ '\n' := by
  intro he; subst he; exact absurd h (by decide)

theorem isDigit_not_space {c : Char} (h : c.isDigit = true) : isPySpace c = false := by
  have h1 : c ≠ ' ' := by intro he; subst he; exact absurd h (by decide)
  have h2 : c ≠ '\t' := by intro he; subst he; exact absurd h (by decide)
  have h3 : c ≠ '\n' := by intro he; subst he; exact absurd h (by decide)
  have h4 : c ≠ '\r' := by intro he; subst he; exact absurd h (by decide)
  have h5 : c ≠ '\x0b' := by intro he; subst he; exact absurd h (by decide)
  have h6 : c ≠ '\x0c' := by intro he; subst he; exact absurd h (by decide)
  simp [isPySpace, h1, h2, h3, h4, h5, h6]

theorem natToDigitsAux_append :
    ∀ (fuel n : Nat) (acc : List Char),
      natToDigitsAux fuel n acc = natToDigitsAux fuel n [] ++ acc := by
  intro fuel
  induction fuel with
  | zero => intro n acc; simp [natToDigitsAux]
  | succ f ih =>
    intro n acc
    by_cases h : n < 10
    · simp [natToDigitsAux, h]
    · simp only [natToDigitsAux, if_neg h]
      rw [ih (n / 10) (Nat.digitChar (n % 10) :: acc), ih (n / 10) [Nat.digitChar (n % 10)]]
      simp

theorem natToDigitsAux_fuel :
    ∀ (n f1 f2 : Nat), n < f1 → n < f2 →
      natToDigitsAux f1 n [] = natToDigitsAux f2 n [] := by
  intro n
  induction n using Nat.strong_induction_on with
  | _ n ih =>
    intro f1 f2 h1 h2
    cases f1 with
    | zero => omega
    | succ f1 =>
      cases f2 with
      | zero => omega
      | succ f2 =>
        by_cases h : n < 10
        · simp [natToDigitsAux, h]
        · simp only [natToDigitsAux, if_neg h]
          rw [natToDigitsAux_append f1, natToDigitsAux_append f2]
          have hlt : n / 10 < n := Nat.div_lt_self (by omega) (by omega)
          rw [ih (n / 10) hlt f1 f2 (by omega) (by omega)]

theorem pyNatRepr_lt {n : Nat} (h : n < 10) : pyNatRepr n = [Nat.digitChar n] := by
  simp [pyNatRepr, natToDigitsAux, h, Nat.mod_eq_of_lt h]

theorem pyNatRepr_ge {n : Nat} (h : 10 ≤ n) :
    pyNatRepr n = pyNatRepr (n / 10) ++ [Nat.digitChar (n % 10)] := by
  have hn : ¬ n < 10 := by omega
  have hlt : n / 10 < n := Nat.div_lt_self (by omega) (by omega)
  simp only [pyNatRepr, natToDigitsAux, if_neg hn]
  rw [natToDigitsAux_append]
  congr 1
  exact natToDigitsAux_fuel (n / 10) n ((n / 10) + 1) hlt (Nat.lt_succ_self _)

theorem digitsVal_append_one (A : List Char) (c : Char) :
    digitsVal (A ++ [c]) = 10 * digitsVal A + digitVal c := by
  simp [digitsVal, List.foldl_append]

theorem digitsVal_pyNatRepr : ∀ n : Nat, digitsVal (pyNatRepr n) = n := by
  intro n
  induction n using Nat.strong_induction_on with
  | _ n ih =>
    by_cases h : n < 10
    · rw [pyNatRepr_lt h]
      simp [digitsVal, digitVal_digitChar h]
    · have hlt : n / 10 < n := Nat.div_lt_self (by omega) (by omega)
      rw [pyNatRepr_ge (by omega), digitsVal_append_one, ih (n / 10) hlt,
        digitVal_digitChar (Nat.mod_lt _ (by omega))]
      omega

theorem pyNatRepr_digits : ∀ (n : Nat), ∀ c ∈ pyNatRepr n, c.isDigit = true := by
  intro n
  induction n using Nat.strong_induction_on with
  | _ n ih =>
    intro c hc
    by_cases h : n < 10
    · rw [pyNatRepr_lt h] at hc
      simp at hc
      subst hc
      exact digitChar_isDigit h
    · have hlt : n / 10 < n := Nat.div_lt_self (by omega) (by omega)
      rw [pyNatRepr_ge (by omega)] at hc
      rcases List.mem_append.mp hc with h1 | h1
      · exact ih (n / 10) hlt c h1
      · simp at h1
        subst h1
        exact digitChar_isDigit (Nat.mod_lt _ (by omega))

theorem pyNatRepr_ne_nil (n : Nat) : pyNatRepr n ≠ [] := by
  by_cases h : n < 10
  · rw [pyNatRepr_lt h]; simp
  · rw [pyNatRepr_ge (by omega)]; simp

/-! ### Helper lemmas: stripping, the regex, splitting -/

theorem dropWhile_eq_self_of {p : Char → Bool} {cs : List Char}
    (h : ∀ c ∈ cs, p c = false) : cs.dropWhile p = cs := by
  cases cs with
  | nil => rfl
  | cons c rest => simp [List.dropWhile_cons, h c (by simp)]

theorem pyStripL_eq_self {cs : List Char} (h : ∀ c ∈ cs, isPySpace c = false) :
    pyStripL cs = cs := by
  unfold pyStripL
  rw [dropWhile_eq_self_of h,
    dropWhile_eq_self_of (fun c hc => h c (List.mem_reverse.mp hc)),
    List.reverse_reverse]

theorem pyStripL_cons_space (cs : List Char) : pyStripL (' ' :: cs) = pyStripL cs := by
  have h : isPySpace ' ' = true := by decide
  simp [pyStripL, List.dropWhile_cons, h]

theorem matchParen_none {cs : List Char} (h : ∀ c ∈ cs, c ≠ '(') :
    matchParen cs = none := by
  unfold matchParen
  split
  · rename_i r2 heq
    have hmem : '(' ∈ cs :=
      (List.dropWhile_sublist (l := cs) (p := isPySpace)).subset (by rw [heq]; simp)
    exact absurd rfl (h '(' hmem)
  · rfl

theorem reSubParenAux_id : ∀ (fuel : Nat) (cs : List Char),
    (∀ c ∈ cs, c ≠ '(') → reSubParenAux fuel cs = cs := by
  intro fuel
  induction fuel with
  | zero => intro cs _; cases cs <;> rfl
  | succ f ih =>
    intro cs h
    cases cs with
    | nil => rfl
    | cons c rest =>
      rw [reSubParenAux, matchParen_none h,
        ih rest (fun d hd => h d (List.mem_cons_of_mem _ hd))]

theorem reSubParen_id {cs : List Char} (h : ∀ c ∈ cs, c ≠ '(') : reSubParen cs = cs :=
  reSubParenAux_id _ cs h

theorem splitCharL_ne_nil (sep : Char) : ∀ cs, splitCharL sep cs ≠ [] := by
  intro cs
  cases cs with
  | nil => simp [splitCharL]
  | cons c rest =>
    simp only [splitCharL]
    cases h : splitCharL sep rest with
    | nil => simp
    | cons p ps => by_cases hc : c = sep <;> simp [hc]

theorem splitCharL_cons_sep (sep : Char) (cs : List Char) :
    splitCharL sep (sep :: cs) = [] :: splitCharL sep cs := by
  simp only [splitCharL]
  cases h : splitCharL sep cs with
  | nil => exact absurd h (splitCharL_ne_nil sep cs)
  | cons p ps => simp

theorem splitCharL_append {sep : Char} :
    ∀ (p r q : List Char) (qs : List (List Char)),
      (∀ c ∈ p, c ≠ sep) → splitCharL sep r = q :: qs →
      splitCharL sep (p ++ r) = (p ++ q) :: qs := by
  intro p
  induction p with
  | nil => intro r q qs _ he; simpa using he
  | cons c p ih =>
    intro r q qs h he
    have hc : c ≠ sep := h c (by simp)
    have hrec := ih r q qs (fun d hd => h d (by simp [hd])) he
    simp only [List.cons_append, splitCharL, List.append_eq]
    rw [hrec]
    simp [hc]

theorem splitCharL_no_sep {sep : Char} {p : List Char} (h : ∀ c ∈ p, c ≠ sep) :
    splitCharL sep p = [p] := by
  have := splitCharL_append p [] [] [] h (by simp [splitCharL])
  simpa using this

theorem splitFirstL_append {sep : Char} :
    ∀ (a b : List Char), (∀ c ∈ a, c ≠ sep) →
      splitFirstL sep (a ++ sep :: b) = some (a, b) := by
  intro a
  induction a with
  | nil => intro b _; simp [splitFirstL]
  | cons c a ih =>
    intro b h
    have hc : c ≠ sep := h c (by simp)
    simp [splitFirstL, hc, ih b (fun d hd => h d (by simp [hd]))]

theorem containsSub_single_true {c : Char} :
    ∀ {cs : List Char}, c ∈ cs → containsSub [c] cs = true := by
  intro cs
  induction cs with
  | nil => intro h; simp at h
  | cons d t ih =>
    intro h
    simp only [containsSub, Bool.or_eq_true]
    rcases List.mem_cons.mp h with he | hm
    · left; subst he; simp [List.isPrefixOf]
    · right; exact ih hm

theorem containsSub_single_false {c : Char} :
    ∀ {cs : List Char}, c ∉ cs → containsSub [c] cs = false := by
  intro cs
  induction cs with
  | nil => intro _; rfl
  | cons d t ih =>
    intro h
    have hcd : c ≠ d := fun he => h (by simp [he])
    simp only [containsSub, Bool.or_eq_false_iff]
    constructor
    · simp [List.isPrefixOf, hcd]
    · exact ih (fun hm => h (by simp [hm]))

/-! ### Helper lemmas: Python `int` on rendered numerals -/

theorem pyDigitsRun_all_digits :
    ∀ (cs : List Char) (acc : Nat), (∀ c ∈ cs, c.isDigit = true) →
      pyDigitsRun cs acc = some (cs.foldl (fun a c => 10 * a + digitVal c) acc) := by
  intro cs
  induction cs with
  | nil => intro acc _; simp [pyDigitsRun]
  | cons c rest ih =>
    intro acc h
    have hc : c.isDigit = true := h c (by simp)
    have hne : c ≠ '_' := isDigit_ne_underscore hc
    rw [pyDigitsRun.eq_def]
    simp [hne, hc, ih _ (fun d hd => h d (by simp [hd]))]

theorem pyDigitsStart_digits {cs : List Char} (h1 : cs ≠ [])
    (h2 : ∀ c ∈ cs, c.isDigit = true) :
    pyDigitsStart cs = some (digitsVal cs) := by
  cases cs with
  | nil => exact absurd rfl h1
  | cons c rest =>
    have hc := h2 c (by simp)
    simp only [pyDigitsStart, hc, if_pos]
    rw [pyDigitsRun_all_digits rest _ (fun d hd => h2 d (by simp [hd]))]
    simp [digitsVal]

theorem pyIntL_pyNatRepr (n : Nat) : pyIntL (pyNatRepr n) = some (n : Int) := by
  have hd := pyNatRepr_digits n
  have hs : pyStripL (pyNatRepr n) = pyNatRepr n :=
    pyStripL_eq_self (fun c hc => isDigit_not_space (hd c hc))
  unfold pyIntL
  rw [hs]
  cases hrepr : pyNatRepr n with
  | nil => exact absurd hrepr (pyNatRepr_ne_nil n)
  | cons c rest =>
    have hc : c.isDigit = true := hd c (by rw [hrepr]; simp)
    have h1 : c ≠ '-' := isDigit_ne_dash hc
    have h2 : c ≠ '+' := isDigit_ne_plus hc
    have h3 : pyDigitsStart (c :: rest) = some (digitsVal (c :: rest)) :=
      pyDigitsStart_digits (by simp) (fun d hd2 => hd d (by rw [hrepr]; exact hd2))
    have h4 : digitsVal (c :: rest) = n := by
      rw [← hrepr]; exact digitsVal_pyNatRepr n
    simp [h1, h2, h3, h4]

theorem pyIntL_pyIntRepr (v : Int) : pyIntL (pyIntReprL v) = some v := by
  unfold pyIntReprL
  by_cases h : v < 0
  · simp only [if_pos h]
    have hd := pyNatRepr_digits v.natAbs
    have hs : pyStripL ('-' :: pyNatRepr v.natAbs) = '-' :: pyNatRepr v.natAbs := by
      refine pyStripL_eq_self ?_
      intro c hc
      rcases List.mem_cons.mp hc with he | hm
      · subst he; decide
      · exact isDigit_not_space (hd c hm)
    unfold pyIntL
    rw [hs]
    have h3 : pyDigitsStart (pyNatRepr v.natAbs) = some (digitsVal (pyNatRepr v.natAbs)) :=
      pyDigitsStart_digits (pyNatRepr_ne_nil _) hd
    have habs : ((v.natAbs : Int)) = -v := Int.ofNat_natAbs_of_nonpos (le_of_lt h)
    simp [h3, digitsVal_pyNatRepr, habs]
  · simp only [if_neg h]
    rw [pyIntL_pyNatRepr]
    congr 1
    omega

/-! ### Helper lemmas: the allocation round trip (C4) -/

theorem perm_sorted_strict_eq :
    ∀ (l m : List (String × Int)), m.Perm l → List.Sorted portLe m →
      l.Pairwise (fun a b => a.2 < b.2) → m = l := by
  intro l
  induction l with
  | nil => intro m hp _ _; exact List.perm_nil.mp hp
  | cons a l2 ih =>
    intro m hp hsort hstrict
    cases m with
    | nil => exact absurd hp.symm (by simp [List.perm_nil])
    | cons b m2 =>
      have hba : b = a := by
        have hb : b ∈ a :: l2 := hp.subset (by simp)
        have ha : a ∈ b :: m2 := hp.symm.subset (by simp)
        rcases List.mem_cons.mp hb with he | hm
        · exact he
        · rcases List.mem_cons.mp ha with he2 | hm2
          · exact he2.symm
          · have h1 : a.2 < b.2 := (List.pairwise_cons.mp hstrict).1 b hm
            have h2 : portLe b a := (List.pairwise_cons.mp hsort).1 a hm2
            exact absurd h2 (by simp only [portLe]; omega)
      subst hba
      have htail := hp.cons_inv
      rw [ih m2 htail (List.pairwise_cons.mp hsort).2 (List.pairwise_cons.mp hstrict).2]

theorem dictInsert_notmem {k : String} {v : Int} :
    ∀ {d : List (String × Int)}, (∀ q ∈ d, q.1 ≠ k) →
      dictInsert k v d = d ++ [(k, v)] := by
  intro d
  induction d with
  | nil => intro _; rfl
  | cons q d2 ih =>
    intro h
    have hq : q.1 ≠ k := h q (by simp)
    cases q with
    | mk k2 v2 =>
      simp only [dictInsert, if_neg hq, List.cons_append]
      rw [ih (fun r hr => h r (by simp [hr]))]

theorem pyIntRepr_chars (v : Int) :
    ∀ c ∈ pyIntReprL v, c.isDigit = true ∨ c = '-' := by
  intro c hc
  unfold pyIntReprL at hc
  by_cases h : v < 0
  · rw [if_pos h] at hc
    rcases List.mem_cons.mp hc with he | hm
    · right; exact he
    · left; exact pyNatRepr_digits _ c hm
  · rw [if_neg h] at hc
    left; exact pyNatRepr_digits _ c hc

theorem allocPairStr_chars {q : String × Int}
    (hlab : ∀ c ∈ q.1.data, c ≠ ',' ∧ c ≠ ':' ∧ isPySpace c = false) :
    ∀ c ∈ allocPairStr q, c ≠ ',' ∧ isPySpace c = false := by
  intro c hc
  unfold allocPairStr at hc
  rcases List.mem_append.mp hc with hm | hm
  · exact ⟨(hlab c hm).1, (hlab c hm).2.2⟩
  · rcases List.mem_cons.mp hm with he | hm2
    · subst he; exact ⟨by decide, by decide⟩
    · rcases pyIntRepr_chars q.2 c hm2 with hd | he
      · exact ⟨isDigit_ne_comma hd, isDigit_not_space hd⟩
      · subst he; exact ⟨by decide, by decide⟩

theorem allocStep_render {d : List (String × Int)} {q : String × Int}
    (hlab : ∀ c ∈ q.1.data, c ≠ ',' ∧ c ≠ ':' ∧ isPySpace c = false) :
    allocStep d (allocPairStr q) = dictInsert q.1 q.2 d ∧
    allocStep d (' ' :: allocPairStr q) = dictInsert q.1 q.2 d := by
  have hstrip : pyStripL (allocPairStr q) = allocPairStr q :=
    pyStripL_eq_self (fun c hc => (allocPairStr_chars hlab c hc).2)
  have hsplit : splitFirstL ':' (allocPairStr q) = some (q.1.data, pyIntReprL q.2) :=
    splitFirstL_append q.1.data (pyIntReprL q.2) (fun c hc => (hlab c hc).2.1)
  have hlabstrip : pyStripL q.1.data = q.1.data :=
    pyStripL_eq_self (fun c hc => (hlab c hc).2.2)
  have hmk : (⟨pyStripL q.1.data⟩ : String) = q.1 := by rw [hlabstrip]
  constructor
  · unfold allocStep
    rw [hstrip, hsplit]
    simp [pyIntL_pyIntRepr, hmk]
  · unfold allocStep
    rw [pyStripL_cons_space, hstrip, hsplit]
    simp [pyIntL_pyIntRepr, hmk]

theorem splitCharL_render :
    ∀ (ps : List (String × Int)) (p : String × Int),
      (∀ q ∈ p :: ps, ∀ c ∈ allocPairStr q, c ≠ ',') →
      splitCharL ',' (renderAllocL (p :: ps)) =
        allocPairStr p :: ps.map (fun q => ' ' :: allocPairStr q) := by
  intro ps
  induction ps with
  | nil =>
    intro p h
    exact splitCharL_no_sep (h p (by simp))
  | cons q ps2 ih =>
    intro p h
    have hjoin : renderAllocL (p :: q :: ps2) =
        allocPairStr p ++ ',' :: ' ' :: renderAllocL (q :: ps2) := by
      simp [renderAllocL, joinL]
    rw [hjoin]
    have hrec : splitCharL ',' (renderAllocL (q :: ps2)) =
        allocPairStr q :: ps2.map (fun r => ' ' :: allocPairStr r) := by
      refine ih q ?_
      intro r hr c hc
      refine h r ?_ c hc
      rcases List.mem_cons.mp hr with he | hm
      · simp [he]
      · simp [List.mem_cons_of_mem, hm]
    have hsp : splitCharL ',' (' ' :: renderAllocL (q :: ps2)) =
        (' ' :: allocPairStr q) :: ps2.map (fun r => ' ' :: allocPairStr r) := by
      have := splitCharL_append [' '] (renderAllocL (q :: ps2)) _ _
        (by intro c hc; simp at hc; subst hc; decide) hrec
      simpa using this
    have hcs : splitCharL ',' (',' :: ' ' :: renderAllocL (q :: ps2)) =
        [] :: (' ' :: allocPairStr q) :: ps2.map (fun r => ' ' :: allocPairStr r) := by
      rw [splitCharL_cons_sep, hsp]
    have := splitCharL_append (allocPairStr p) (',' :: ' ' :: renderAllocL (q :: ps2))
      _ _ (h p (by simp)) hcs
    simpa using this

theorem foldl_allocStep :
    ∀ (ps : List (String × Int)) (d : List (String × Int)),
      (∀ q ∈ ps, ∀ c ∈ q.1.data, c ≠ ',' ∧ c ≠ ':' ∧ isPySpace c = false) →
      ps.Pairwise (fun a b => a.1 ≠ b.1) →
      (∀ q ∈ ps, ∀ r ∈ d, r.1 ≠ q.1) →
      (ps.map (fun q => ' ' :: allocPairStr q)).foldl allocStep d = d ++ ps := by
  intro ps
  induction ps with
  | nil => intro d _ _ _; simp
  | cons q ps2 ih =>
    intro d hlab hpw hdis
    simp only [List.map_cons, List.foldl_cons]
    rw [(allocStep_render (hlab q (by simp))).2,
      dictInsert_notmem (fun r hr => hdis q (by simp) r hr)]
    rw [ih (d ++ [(q.1, q.2)]) (fun r hr c hc => hlab r (by simp [hr]) c hc)
      (List.pairwise_cons.mp hpw).2 ?_]
    · simp
    · intro r hr s hs
      rcases List.mem_append.mp hs with hm | hm
      · exact hdis r (by simp [hr]) s hm
      · have : s = (q.1, q.2) := by simpa using hm
        subst this
        exact (List.pairwise_cons.mp hpw).1 r hr

theorem parse_render {l2 : List (String × Int)}
    (hlab : ∀ q ∈ l2, ∀ c ∈ q.1.data, c ≠ ',' ∧ c ≠ ':' ∧ isPySpace c = false)
    (hpw : l2.Pairwise (fun a b => a.1 ≠ b.1)) :
    parse_allocated (renderAllocL l2) = l2 := by
  cases l2 with
  | nil => rfl
  | cons p ps =>
    have hne : (renderAllocL (p :: ps)).isEmpty = false := by
      cases ps with
      | nil => simp [renderAllocL, joinL, allocPairStr]
      | cons q ps2 => simp [renderAllocL, joinL, allocPairStr]
    unfold parse_allocated
    rw [hne]
    simp only [Bool.false_eq_true, if_false]
    rw [splitCharL_render ps p (fun q hq c hc => (allocPairStr_chars (hlab q hq) c hc).1)]
    simp only [List.foldl_cons]
    rw [(allocStep_render (hlab p (by simp))).1]
    have : dictInsert p.1 p.2 [] = [] ++ [(p.1, p.2)] := rfl
    rw [this]
    rw [foldl_allocStep ps ([] ++ [(p.1, p.2)])
      (fun r hr c hc => hlab r (by simp [hr]) c hc)
      (List.pairwise_cons.mp hpw).2 ?_]
    · simp
    · intro r hr s hs
      have : s = (p.1, p.2) := by simpa using hs
      subst this
      exact (List.pairwise_cons.mp hpw).1 r hr

theorem format_canonical {l l2 : List (String × Int)}
    (hstrict : l.Pairwise (fun a b => a.2 < b.2)) (hperm : l2.Perm l) :
    format_allocated l2 = renderAllocL l := by
  cases h2 : l2 with
  | nil =>
    have : l = [] := List.perm_nil.mp (h2 ▸ hperm : ([] : List (String × Int)).Perm l).symm
    subst this
    rfl
  | cons p ps =>
    subst h2
    have hsorted : List.Sorted portLe (List.insertionSort portLe (p :: ps)) :=
      List.sorted_insertionSort portLe (p :: ps)
    have hp2 : (List.insertionSort portLe (p :: ps)).Perm l :=
      (List.perm_insertionSort portLe (p :: ps)).trans hperm
    have heq : List.insertionSort portLe (p :: ps) = l :=
      perm_sorted_strict_eq l _ hp2 hsorted hstrict
    unfold format_allocated
    rw [heq]
    rfl

/-! ### Helper lemmas: the `parse_entries` scan -/

theorem stripLS_newEntry (nm c : String) (i : Nat) :
    stripLS (newEntry nm c i) = newEntry nm c 0 := rfl

set_option maxHeartbeats 1000000 in
theorem stripLS_applyRow (e : Entry) (l : List Char) :
    stripLS (applyRow e l) = applyRow (stripLS e) l := by
  cases e
  unfold applyRow stripLS
  split <;> (try split_ifs) <;> rfl

theorem applyRow_name (e : Entry) (l : List Char) : (applyRow e l).name = e.name := by
  cases e
  unfold applyRow
  split <;> (try split_ifs) <;> rfl

theorem toList_map_stripLS {cur cur2 : Option Entry}
    (h : cur.map stripLS = cur2.map stripLS) :
    cur.toList.map stripLS = cur2.toList.map stripLS := by
  cases cur <;> cases cur2 <;> simp_all

theorem pipe_no_hash {l : List Char} (h : "| ".data.isPrefixOf l = true) :
    "## ".data.isPrefixOf l = false ∧ "### ".data.isPrefixOf l = false := by
  cases l with
  | nil => simp [List.isPrefixOf] at h
  | cons c t =>
    have hc : c = '|' := by
      simp [List.isPrefixOf] at h
      exact h.1.symm
    subst hc
    constructor <;> simp [List.isPrefixOf]

theorem parseLines_ls_irrel (cats : List String) :
    ∀ (ls : List (List Char)) (i j : Nat) (cat : Option String)
      (cur cur2 : Option Entry) (acc acc2 : List Entry),
      cur.map stripLS = cur2.map stripLS → acc.map stripLS = acc2.map stripLS →
      (parseLines cats ls i cat cur acc).map stripLS =
        (parseLines cats ls j cat cur2 acc2).map stripLS := by
  intro ls
  induction ls with
  | nil =>
    intro i j cat cur cur2 acc acc2 hcur hacc
    simp only [parseLines, List.map_append, hacc, toList_map_stripLS hcur]
  | cons l ls ih =>
    intro i j cat cur cur2 acc acc2 hcur hacc
    have hsome : cur2.isSome = cur.isSome := by
      cases cur <;> cases cur2 <;> simp_all
    have hacc2 : (acc ++ cur.toList).map stripLS = (acc2 ++ cur2.toList).map stripLS := by
      simp only [List.map_append, hacc, toList_map_stripLS hcur]
    simp only [parseLines, hsome]
    split_ifs
    · exact hacc2
    · exact ih _ _ _ _ _ _ _ hcur hacc
    · exact ih _ _ _ _ _ _ _ hcur hacc
    · exact ih _ _ _ _ _ _ _ (by simp [stripLS_newEntry]) hacc2
    · refine ih _ _ _ _ _ _ _ ?_ hacc
      cases cur <;> cases cur2 <;> simp_all [stripLS_applyRow]
    · exact ih _ _ _ _ _ _ _ hcur hacc

theorem parseLines_stop (cats : List String) {stop : List Char}
    (hstop : isStopLine stop = true) :
    ∀ (pre : List (List Char)) (post : List (List Char)) (i : Nat)
      (cat : Option String) (cur : Option Entry) (acc : List Entry),
      parseLines cats (pre ++ stop :: post) i cat cur acc =
        parseLines cats pre i cat cur acc := by
  have hs := hstop
  simp only [isStopLine, Bool.and_eq_true, Bool.not_eq_true'] at hs
  intro pre
  induction pre with
  | nil =>
    intro post i cat cur acc
    simp [parseLines, hs.1.1, hs.1.2, hs.2]
  | cons l pre ih =>
    intro post i cat cur acc
    simp only [List.cons_append, parseLines]
    split_ifs <;> first | rfl | apply ih

set_option maxHeartbeats 1000000 in
theorem applyRow_skipped {l : List Char} (h : isSkippedRow l = true) (e : Entry) :
    applyRow e l = e := by
  simp only [isSkippedRow, Bool.and_eq_true] at h
  obtain ⟨-, h2⟩ := h
  unfold applyRow
  split
  · rename_i key value heq
    rw [heq] at h2
    simp only [Bool.not_eq_true', List.any_eq_false, decide_eq_false_iff_not,
      decide_eq_true_eq] at h2
    have hk : ∀ k ∈ knownKeys, ¬ key.map Char.toLower = k :=
      fun k hm he => h2 k hm he.symm
    rw [if_neg (hk _ (by simp [knownKeys])), if_neg (hk _ (by simp [knownKeys])),
      if_neg (hk _ (by simp [knownKeys])), if_neg (hk _ (by simp [knownKeys])),
      if_neg (hk _ (by simp [knownKeys])), if_neg (hk _ (by simp [knownKeys])),
      if_neg (hk _ (by simp [knownKeys])), if_neg (hk _ (by simp [knownKeys]))]
  · rfl

theorem parseLines_skiprow (cats : List String) {bad : List Char}
    (hbad : isSkippedRow bad = true) :
    ∀ (pre post : List (List Char)) (i j : Nat) (cat : Option String)
      (cur cur2 : Option Entry) (acc acc2 : List Entry),
      cur.map stripLS = cur2.map stripLS → acc.map stripLS = acc2.map stripLS →
      (parseLines cats (pre ++ bad :: post) i cat cur acc).map stripLS =
        (parseLines cats (pre ++ post) j cat cur2 acc2).map stripLS := by
  have hpipe : ("| ".data.isPrefixOf bad) = true := by
    have h := hbad
    simp only [isSkippedRow, Bool.and_eq_true] at h
    exact h.1
  have hno := pipe_no_hash hpipe
  intro pre
  induction pre with
  | nil =>
    intro post i j cat cur cur2 acc acc2 hcur hacc
    cases cur with
    | none =>
      cases cur2 with
      | some e2 => simp at hcur
      | none =>
        simp only [List.nil_append, parseLines]
        rw [if_neg (by simp [hno.1]), if_neg (by simp [hno.2]),
          if_neg (by simp)]
        exact parseLines_ls_irrel cats post _ _ _ _ _ _ _ (by simp) hacc
    | some e =>
      cases cur2 with
      | none => simp at hcur
      | some e2 =>
        simp only [List.nil_append, parseLines]
        rw [if_neg (by simp [hno.1]), if_neg (by simp [hno.2]),
          if_pos (by simp [hpipe])]
        refine parseLines_ls_irrel cats post _ _ _ _ _ _ _ ?_ hacc
        show some (stripLS (applyRow e bad)) = some (stripLS e2)
        rw [applyRow_skipped hbad e]
        simpa using hcur
  | cons l pre ih =>
    intro post i j cat cur cur2 acc acc2 hcur hacc
    have hsome : cur2.isSome = cur.isSome := by
      cases cur <;> cases cur2 <;> simp_all
    have hacc2 : (acc ++ cur.toList).map stripLS = (acc2 ++ cur2.toList).map stripLS := by
      simp only [List.map_append, hacc, toList_map_stripLS hcur]
    simp only [List.cons_append, parseLines, hsome]
    split_ifs
    · exact hacc2
    · exact ih _ _ _ _ _ _ _ _ hcur hacc
    · exact ih _ _ _ _ _ _ _ _ hcur hacc
    · exact ih _ _ _ _ _ _ _ _ (by simp [stripLS_newEntry]) hacc2
    · refine ih _ _ _ _ _ _ _ _ ?_ hacc
      cases cur <;> cases cur2 <;> simp_all [stripLS_applyRow]
    · exact ih _ _ _ _ _ _ _ _ hcur hacc

theorem parseLines_unrelated (cats : List String) {hd : List Char}
    (hhd : isUnrelatedHeading cats hd = true) :
    ∀ (pre post : List (List Char)) (i j : Nat) (cat : Option String)
      (cur cur2 : Option Entry) (acc acc2 : List Entry),
      cur.map stripLS = cur2.map stripLS → acc.map stripLS = acc2.map stripLS →
      (parseLines cats (pre ++ hd :: post) i cat cur acc).map stripLS =
        (parseLines cats (pre ++ post) j cat cur2 acc2).map stripLS := by
  have h := hhd
  simp only [isUnrelatedHeading, Bool.and_eq_true, Bool.not_eq_true'] at h
  intro pre
  induction pre with
  | nil =>
    intro post i j cat cur cur2 acc acc2 hcur hacc
    simp only [List.nil_append, parseLines]
    rw [if_pos (by simp [h.1.1.1, h.1.1.2]), if_neg (by simp [h.1.2]),
      if_neg (by simp [h.2])]
    exact parseLines_ls_irrel cats post _ _ _ _ _ _ _ hcur hacc
  | cons l pre ih =>
    intro post i j cat cur cur2 acc acc2 hcur hacc
    have hsome : cur2.isSome = cur.isSome := by
      cases cur <;> cases cur2 <;> simp_all
    have hacc2 : (acc ++ cur.toList).map stripLS = (acc2 ++ cur2.toList).map stripLS := by
      simp only [List.map_append, hacc, toList_map_stripLS hcur]
    simp only [List.cons_append, parseLines, hsome]
    split_ifs
    · exact hacc2
    · exact ih _ _ _ _ _ _ _ _ hcur hacc
    · exact ih _ _ _ _ _ _ _ _ hcur hacc
    · exact ih _ _ _ _ _ _ _ _ (by simp [stripLS_newEntry]) hacc2
    · refine ih _ _ _ _ _ _ _ _ ?_ hacc
      cases cur <;> cases cur2 <;> simp_all [stripLS_applyRow]
    · exact ih _ _ _ _ _ _ _ _ hcur hacc

theorem parseLines_nocat (cats : List String) :
    ∀ (ls : List (List Char)), (∀ l ∈ ls, isCategoryLine cats l = false) →
      ∀ (i : Nat), parseLines cats ls i none none [] = [] := by
  intro ls
  induction ls with
  | nil => intro _ i; simp [parseLines]
  | cons l ls ih =>
    intro h i
    have hl := h l (by simp)
    have hrest : ∀ m ∈ ls, isCategoryLine cats m = false := fun m hm => h m (by simp [hm])
    simp only [parseLines, pyTruthy, Option.isSome_none, Bool.and_false, Bool.false_and,
      Bool.false_eq_true, if_false, Option.toList_none, List.append_nil]
    split_ifs with h1 h2 h3
    · rfl
    · exfalso
      simp only [isCategoryLine] at hl
      rw [h1, h3] at hl
      simp at hl
    · exact ih hrest (i + 1)
    · exact ih hrest (i + 1)

theorem parseLines_names (cats : List String) :
    ∀ (ls : List (List Char)) (i : Nat) (cat : Option String)
      (cur : Option Entry) (acc : List Entry),
      ∃ rest, (parseLines cats ls i cat cur acc).map Entry.name =
        acc.map Entry.name ++ cur.toList.map Entry.name ++ rest := by
  intro ls
  induction ls with
  | nil =>
    intro i cat cur acc
    exact ⟨[], by simp [parseLines]⟩
  | cons l ls ih =>
    intro i cat cur acc
    simp only [parseLines]
    split_ifs
    · exact ⟨[], by simp⟩
    · exact ih _ _ _ _
    · exact ih _ _ _ _
    · obtain ⟨rest, hrest⟩ := ih (i + 1) cat
        (some (newEntry ⟨pyStripL (l.drop 4)⟩ (cat.getD "") i)) (acc ++ cur.toList)
      refine ⟨(⟨pyStripL (l.drop 4)⟩ : String) :: rest, ?_⟩
      rw [hrest]
      simp [newEntry]
    · obtain ⟨rest, hrest⟩ := ih (i + 1) cat (cur.map (fun e => applyRow e l)) acc
      refine ⟨rest, ?_⟩
      rw [hrest]
      cases cur <;> simp [applyRow_name]
    · exact ih _ _ _ _

theorem parseLines_through (cats : List String) :
    ∀ (pre : List (List Char)), (∀ l ∈ pre, isStopLine l = false) →
      ∀ (rest : List (List Char)) (i : Nat) (cat : Option String)
        (cur : Option Entry) (acc : List Entry),
        ∃ cat2 cur2 acc2,
          parseLines cats (pre ++ rest) i cat cur acc =
            parseLines cats rest (i + pre.length) cat2 cur2 acc2 := by
  intro pre
  induction pre with
  | nil =>
    intro _ rest i cat cur acc
    exact ⟨cat, cur, acc, by simp⟩
  | cons l pre ih =>
    intro h rest i cat cur acc
    have hl := h l (by simp)
    have hrest : ∀ m ∈ pre, isStopLine m = false := fun m hm => h m (by simp [hm])
    simp only [List.cons_append, parseLines, List.append_eq]
    split_ifs with h1 h2 h3 h4 h5
    · exfalso
      simp only [isStopLine] at hl
      rw [h1, h2] at hl
      simp at hl
    · obtain ⟨c2, u2, a2, he⟩ := ih hrest rest (i + 1)
        (some ⟨(pyStripL (l.drop 3)).map Char.toUpper⟩) cur acc
      refine ⟨c2, u2, a2, ?_⟩
      rw [he]
      congr 1
      simp
      omega
    · obtain ⟨c2, u2, a2, he⟩ := ih hrest rest (i + 1) cat cur acc
      refine ⟨c2, u2, a2, ?_⟩
      rw [he]
      congr 1
      simp
      omega
    · obtain ⟨c2, u2, a2, he⟩ := ih hrest rest (i + 1) cat
        (some (newEntry ⟨pyStripL (l.drop 4)⟩ (cat.getD "") i)) (acc ++ cur.toList)
      refine ⟨c2, u2, a2, ?_⟩
      rw [he]
      congr 1
      simp
      omega
    · obtain ⟨c2, u2, a2, he⟩ := ih hrest rest (i + 1) cat
        (cur.map (fun e => applyRow e l)) acc
      refine ⟨c2, u2, a2, ?_⟩
      rw [he]
      congr 1
      simp
      omega
    · obtain ⟨c2, u2, a2, he⟩ := ih hrest rest (i + 1) cat cur acc
      refine ⟨c2, u2, a2, ?_⟩
      rw [he]
      congr 1
      simp
      omega

theorem hash3_no_hash2 {l : List Char} (h : "### ".data.isPrefixOf l = true) :
    "## ".data.isPrefixOf l = false := by
  cases l with
  | nil => simp [List.isPrefixOf] at h
  | cons a l1 =>
    cases l1 with
    | nil => simp [List.isPrefixOf] at h
    | cons b l2 =>
      cases l2 with
      | nil => simp [List.isPrefixOf] at h
      | cons c l3 =>
        simp [List.isPrefixOf] at h ⊢
        intro _ _ hc
        rw [← hc] at h
        exact absurd h.2.2.1 (by decide)

/-! ### Helper lemmas: `parse_port_range` on rendered numerals -/

theorem parse_port_range_hyphen (a b : Nat) :
    parse_port_range (pyNatRepr a ++ '-' :: pyNatRepr b) =
      (some (a : Int), some ((b : Int) - (a : Int) + 1)) := by
  have hda := pyNatRepr_digits a
  have hdb := pyNatRepr_digits b
  have hmem : ∀ c ∈ pyNatRepr a ++ '-' :: pyNatRepr b, c.isDigit = true ∨ c = '-' := by
    intro c hc
    rcases List.mem_append.mp hc with hm | hm
    · exact Or.inl (hda c hm)
    · rcases List.mem_cons.mp hm with he | hm2
      · exact Or.inr he
      · exact Or.inl (hdb c hm2)
  have hne : (pyNatRepr a ++ '-' :: pyNatRepr b).isEmpty = false := by
    cases h : pyNatRepr a with
    | nil => exact absurd h (pyNatRepr_ne_nil a)
    | cons c t => simp [h]
  have hsub : reSubParen (pyNatRepr a ++ '-' :: pyNatRepr b) =
      pyNatRepr a ++ '-' :: pyNatRepr b := by
    refine reSubParen_id ?_
    intro c hc
    rcases hmem c hc with hd | he
    · exact isDigit_ne_lparen hd
    · subst he; decide
  have hstrip : pyStripL (pyNatRepr a ++ '-' :: pyNatRepr b) =
      pyNatRepr a ++ '-' :: pyNatRepr b := by
    refine pyStripL_eq_self ?_
    intro c hc
    rcases hmem c hc with hd | he
    · exact isDigit_not_space hd
    · subst he; decide
  have hcont : containsSub ['-'] (pyNatRepr a ++ '-' :: pyNatRepr b) = true :=
    containsSub_single_true (by simp)
  have hsplit : splitCharL '-' (pyNatRepr a ++ '-' :: pyNatRepr b) =
      [pyNatRepr a, pyNatRepr b] := by
    have h3 : splitCharL '-' (pyNatRepr b) = [pyNatRepr b] :=
      splitCharL_no_sep (fun c hc => isDigit_ne_dash (hdb c hc))
    have h2 : splitCharL '-' ('-' :: pyNatRepr b) = [] :: [pyNatRepr b] := by
      rw [splitCharL_cons_sep, h3]
    have h4 := splitCharL_append (pyNatRepr a) ('-' :: pyNatRepr b) [] [pyNatRepr b]
      (fun c hc => isDigit_ne_dash (hda c hc)) h2
    simpa using h4
  unfold parse_port_range
  rw [hne]
  simp only [Bool.false_eq_true, if_false]
  rw [hsub, hstrip, hcont]
  simp only [if_true]
  rw [hsplit]
  simp [pyIntL_pyNatRepr]

theorem parse_port_range_single (p : Nat) :
    parse_port_range (pyNatRepr p) = (some (p : Int), some 10) := by
  have hd := pyNatRepr_digits p
  have hne : (pyNatRepr p).isEmpty = false := by
    cases h : pyNatRepr p with
    | nil => exact absurd h (pyNatRepr_ne_nil p)
    | cons c t => simp [h]
  have hsub : reSubParen (pyNatRepr p) = pyNatRepr p :=
    reSubParen_id (fun c hc => isDigit_ne_lparen (hd c hc))
  have hstrip : pyStripL (pyNatRepr p) = pyNatRepr p :=
    pyStripL_eq_self (fun c hc => isDigit_not_space (hd c hc))
  have hcont : containsSub ['-'] (pyNatRepr p) = false := by
    refine containsSub_single_false ?_
    intro hm
    exact absurd rfl (isDigit_ne_dash (hd '-' hm))
  unfold parse_port_range
  rw [hne]
  simp only [Bool.false_eq_true, if_false]
  rw [hsub, hstrip, hcont]
  simp [pyIntL_pyNatRepr]

theorem parseLines_skip_prefix (cats : List String) :
    ∀ (pre : List (List Char)),
      (∀ l ∈ pre, isCategoryLine cats l = false ∧ isStopLine l = false) →
      ∀ (post : List (List Char)) (i j : Nat),
        (parseLines cats (pre ++ post) i none none []).map stripLS =
          (parseLines cats post j none none []).map stripLS := by
  intro pre
  induction pre with
  | nil =>
    intro _ post i j
    exact parseLines_ls_irrel cats post i j none none none [] [] rfl rfl
  | cons l pre ih =>
    intro h post i j
    obtain ⟨hlc, hls⟩ := h l (by simp)
    have hrest : ∀ m ∈ pre, isCategoryLine cats m = false ∧ isStopLine m = false :=
      fun m hm => h m (by simp [hm])
    simp only [List.cons_append, parseLines, pyTruthy, Option.isSome_none, Bool.and_false,
      Bool.false_and, Bool.false_eq_true, if_false, List.append_eq]
    split_ifs with h1 h2 h3
    · exfalso
      simp only [isStopLine] at hls
      rw [h1, h2] at hls
      simp at hls
    · exfalso
      simp only [isCategoryLine] at hlc
      rw [h1, h3] at hlc
      simp at hlc
    · exact ih hrest post (i + 1) j
    · exact ih hrest post (i + 1) j

/-! ### Claim theorems -/

/-- Claim C1 (code-bug evidence): `update_entry_allocated` re-scans raw lines
for any `### ` heading *containing* the entry name as a substring and does
not break on such headings, so updating entry `A` rewrites the `Allocated`
line of the later entry `AB`: the re-parsed document leaves `A`'s allocation
mapping unchanged (not the requested one) and mutates `AB`'s instead. -/
theorem updatePort_clobbers_other_entry_on_reparse :
    update_entry_allocated ["WORK"]
        "## WORK\n### A\n| Ports | 3000-3009 |\n### AB\n| Allocated | x:1 |"
        "A" [("y", 3000)] =
      .ok "## WORK\n### A\n| Ports | 3000-3009 |\n### AB\n| Allocated | y:3000 |" ∧
    (parse_entries ["WORK"]
        "## WORK\n### A\n| Ports | 3000-3009 |\n### AB\n| Allocated | y:3000 |").map
      (fun e : Entry => (e.name, e.allocated_dict)) =
      [("A", []), ("AB", [("y", 3000)])] := by
  exact ⟨rfl, rfl⟩

/-- Claim C2 (code-bug evidence): updating entry `Alpha` changes exactly one
line, but that line (index 4) lies inside the span of the *different* entry
`Alphabet`, whose heading is at index 3; `Alpha`'s span is lines 1-2. -/
theorem updatePort_changed_line_outside_entry_span :
    splitCharL '\n'
        ("## WORK\n### Alpha\n| Ports | 4000-4009 |\n### Alphabet\n| Allocated | z:5 |").data =
      ["## WORK".data, "### Alpha".data, "| Ports | 4000-4009 |".data,
       "### Alphabet".data, "| Allocated | z:5 |".data] ∧
    update_entry_allocated ["WORK"]
        "## WORK\n### Alpha\n| Ports | 4000-4009 |\n### Alphabet\n| Allocated | z:5 |"
        "Alpha" [("w", 4000)] =
      .ok ⟨joinL ['\n']
        (["## WORK".data, "### Alpha".data, "| Ports | 4000-4009 |".data,
          "### Alphabet".data, "| Allocated | z:5 |".data].set 4
          "| Allocated | w:4000 |".data)⟩ := by
  exact ⟨rfl, rfl⟩

/-- Claim C3 (code-bug evidence): the matched entry `B` has neither an
`| Allocated |` nor a `| Ports |` line in its span (its only body line is
`| Type | Tool |`), yet `update_entry_allocated` succeeds instead of
failing with `NoInsertionPoint`, because its rescan runs on into the later
entry `BC` whose heading contains `B`. -/
theorem updatePort_succeeds_without_insertion_point :
    splitCharL '\n' ("## WORK\n### B\n| Type | Tool |\n### BC\n| Allocated | x:1 |").data =
      ["## WORK".data, "### B".data, "| Type | Tool |".data,
       "### BC".data, "| Allocated | x:1 |".data] ∧
    ("| Allocated |".data.isPrefixOf "| Type | Tool |".data ||
      "| Ports |".data.isPrefixOf "| Type | Tool |".data) = false ∧
    update_entry_allocated ["WORK"]
        "## WORK\n### B\n| Type | Tool |\n### BC\n| Allocated | x:1 |"
        "B" [("y", 2)] =
      .ok "## WORK\n### B\n| Type | Tool |\n### BC\n| Allocated | y:2 |" := by
  exact ⟨rfl, rfl, rfl⟩

/-- Claim C4: `format_allocated` applied after `parse_allocated` reproduces
any allocation string in port-ascending canonical form, and reordering the
rendered pairs still formats back to the canonical (port-ascending) form;
moreover the pair order used by `format_allocated` is sorted by port. -/
theorem format_parse_allocated_roundtrip :
    (∀ (l l2 : List (String × Int)), canonAlloc l → l2.Perm l →
      format_allocated (parse_allocated (renderAllocL l2)) = renderAllocL l) ∧
    (∀ d : List (String × Int), List.Sorted portLe (List.insertionSort portLe d)) := by
  constructor
  · intro l l2 hcanon hperm
    obtain ⟨hstrict, hlabne, hlab⟩ := hcanon
    have hlab2 : ∀ q ∈ l2, ∀ c ∈ q.1.data, c ≠ ',' ∧ c ≠ ':' ∧ isPySpace c = false :=
      fun q hq => hlab q (hperm.subset hq)
    have hpw2 : l2.Pairwise (fun a b => a.1 ≠ b.1) :=
      (hperm.pairwise_iff (fun h he => h he.symm)).mpr hlabne
    rw [parse_render hlab2 hpw2]
    exact format_canonical hstrict hperm
  · exact fun d => List.sorted_insertionSort portLe d

/-- Witness for C4 at the spec's example: parsing the reordered string
`backend:3001, frontend:3000` and formatting yields the port-ascending
form `frontend:3000, backend:3001`. -/
theorem format_parse_allocated_roundtrip_witness :
    format_allocated (parse_allocated ("backend:3001, frontend:3000".data)) =
      "frontend:3000, backend:3001".data := by
  have h := format_parse_allocated_roundtrip.1
    [("frontend", 3000), ("backend", 3001)] [("backend", 3001), ("frontend", 3000)]
    (by decide) (List.Perm.swap _ _ _)
  have e1 : renderAllocL [(("backend" : String), (3001 : Int)), ("frontend", 3000)] =
      "backend:3001, frontend:3000".data := by decide
  have e2 : renderAllocL [(("frontend" : String), (3000 : Int)), ("backend", 3001)] =
      "frontend:3000, backend:3001".data := by decide
  rw [← e1, ← e2]
  exact h

/-- Claim C5: `parse_port_range` strips a parenthesised annotation, maps
`start-end` to `(start, end - start + 1)`, a single integer `p` to
`(p, 10)`, and empty or unparseable input to `(None, None)`; in particular
on the four inputs listed in the specification. -/
theorem parse_port_range_spec :
    parse_port_range "3000-3009".data = (some 3000, some 10) ∧
    parse_port_range "3005".data = (some 3005, some 10) ∧
    parse_port_range "".data = (none, none) ∧
    parse_port_range "3000-3009 (Frontend: 3000)".data = (some 3000, some 10) ∧
    parse_port_range "abc".data = (none, none) ∧
    (∀ a b : Nat, parse_port_range (pyNatRepr a ++ '-' :: pyNatRepr b) =
      (some (a : Int), some ((b : Int) - (a : Int) + 1))) ∧
    (∀ p : Nat, parse_port_range (pyNatRepr p) = (some (p : Int), some 10)) := by
  refine ⟨rfl, rfl, rfl, rfl, rfl, parse_port_range_hyphen, parse_port_range_single⟩

/-- Claim C6 counterexample: a `## ` heading whose trimmed remainder equals
the stop marker `Quick Reference` only case-insensitively (here
`QUICK REFERENCE`) does *not* terminate the scan: the entry `After`, whose
heading is textually after that line, is still returned. -/
theorem stop_marker_case_insensitive_fails :
    (parse_entries ["WORK"] "## WORK\n### Before\n## QUICK REFERENCE\n### After").map
      Entry.name = ["Before", "After"] ∧
    (pyStripL ("## QUICK REFERENCE".data.drop 3)).map Char.toLower =
      "Quick Reference".data.map Char.toLower := by
  exact ⟨rfl, rfl⟩

/-- Claim C6 (amended): a `## ` heading whose trimmed remainder *exactly*
(case-sensitively) equals one of the built-in stop markers terminates the
scan immediately: parsing a document whose lines are `pre ++ stop :: post`
returns exactly the entries of the document whose lines are `pre`, so no
entry after the stop line is ever returned. -/
theorem parse_entries_stop_cut (cats : List String) (c1 c2 : String)
    (pre post : List (List Char)) (stop : List Char)
    (hstop : isStopLine stop = true)
    (h1 : splitCharL '\n' c1.data = pre ++ stop :: post)
    (h2 : splitCharL '\n' c2.data = pre) :
    parse_entries cats c1 = parse_entries cats c2 := by
  unfold parse_entries
  rw [h1, h2]
  exact parseLines_stop cats hstop pre post 0 none none []

/-- Witness for the amended C6 on a concrete document. -/
theorem parse_entries_stop_cut_witness :
    parse_entries ["WORK"] "## WORK\n### Before\n## Quick Reference\n### After" =
      parse_entries ["WORK"] "## WORK\n### Before" := by
  exact parse_entries_stop_cut ["WORK"] _ _ ["## WORK".data, "### Before".data]
    ["### After".data] "## Quick Reference".data (by decide) (by decide) (by decide)

/-- Claim C7: `get_all_allocated_ports` returns exactly one record per
label/port pair of every parsed entry (a permutation of the flattened
records, so collisions are not deduplicated), sorted ascending by port. -/
theorem allAllocatedPorts_sorted_complete (cats : List String) (content : String) :
    (get_all_allocated_ports cats content).Perm
      (flattenAllocs (parse_entries cats content)) ∧
    List.Sorted recLe (get_all_allocated_ports cats content) :=
  ⟨List.perm_insertionSort recLe _, List.sorted_insertionSort recLe _⟩

/-- Claim C8: `parse_entries` is total by construction (it is a Lean
function on all strings); a document none of whose lines is a recognised
category heading parses to the empty sequence; a skipped table row
(malformed or with an unknown key) inserted anywhere changes nothing in
the result except line offsets; and so does an unknown `## ` heading. -/
theorem parse_entries_total_and_skipping :
    (∀ (cats : List String) (content : String),
      (∀ l ∈ splitCharL '\n' content.data, isCategoryLine cats l = false) →
      parse_entries cats content = []) ∧
    (∀ (cats : List String) (c1 c2 : String) (pre post : List (List Char))
       (bad : List Char),
      isSkippedRow bad = true →
      splitCharL '\n' c1.data = pre ++ bad :: post →
      splitCharL '\n' c2.data = pre ++ post →
      (parse_entries cats c1).map stripLS = (parse_entries cats c2).map stripLS) ∧
    (∀ (cats : List String) (c1 c2 : String) (pre post : List (List Char))
       (hd : List Char),
      isUnrelatedHeading cats hd = true →
      splitCharL '\n' c1.data = pre ++ hd :: post →
      splitCharL '\n' c2.data = pre ++ post →
      (parse_entries cats c1).map stripLS = (parse_entries cats c2).map stripLS) := by
  refine ⟨?_, ?_, ?_⟩
  · intro cats content h
    unfold parse_entries
    exact parseLines_nocat cats _ h 0
  · intro cats c1 c2 pre post bad hbad h1 h2
    unfold parse_entries
    rw [h1, h2]
    exact parseLines_skiprow cats hbad pre post 0 0 none none none [] [] rfl rfl
  · intro cats c1 c2 pre post hd hhd h1 h2
    unfold parse_entries
    rw [h1, h2]
    exact parseLines_unrelated cats hhd pre post 0 0 none none none [] [] rfl rfl

/-- Witness for C8: a document with no category heading parses to `[]`,
a malformed row is skipped, and an unknown heading is skipped. -/
theorem parse_entries_total_and_skipping_witness :
    parse_entries ["WORK"] "hello\nworld" = [] ∧
    (parse_entries ["WORK"] "## WORK\n### A\n| Bogus Row\n| Type | Tool |").map stripLS =
      (parse_entries ["WORK"] "## WORK\n### A\n| Type | Tool |").map stripLS ∧
    (parse_entries ["WORK"] "## WORK\n### A\n## Notes\n| Type | Tool |").map stripLS =
      (parse_entries ["WORK"] "## WORK\n### A\n| Type | Tool |").map stripLS := by
  refine ⟨?_, ?_, ?_⟩
  · exact parse_entries_total_and_skipping.1 ["WORK"] "hello\nworld" (by decide)
  · exact parse_entries_total_and_skipping.2.1 ["WORK"] _ _
      ["## WORK".data, "### A".data] ["| Type | Tool |".data] "| Bogus Row".data
      (by decide) (by decide) (by decide)
  · exact parse_entries_total_and_skipping.2.2 ["WORK"] _ _
      ["## WORK".data, "### A".data] ["| Type | Tool |".data] "## Notes".data
      (by decide) (by decide) (by decide)

/-- Claim C9: a `## ` heading that is neither a known category nor a stop
marker does not reset the current category (inserting it anywhere changes
nothing but line offsets); lines before the first recognised category
heading are ignored wholesale; and a `### ` entry placed after a
recognised (non-stop, nonempty-named) category heading is always returned
(its name appears in the parse output). -/
theorem parse_entries_unrelated_headings :
    (∀ (cats : List String) (c1 c2 : String) (pre post : List (List Char))
       (hd : List Char),
      isUnrelatedHeading cats hd = true →
      splitCharL '\n' c1.data = pre ++ hd :: post →
      splitCharL '\n' c2.data = pre ++ post →
      (parse_entries cats c1).map stripLS = (parse_entries cats c2).map stripLS) ∧
    (∀ (cats : List String) (c1 c2 : String) (pre post : List (List Char)),
      (∀ l ∈ pre, isCategoryLine cats l = false ∧ isStopLine l = false) →
      splitCharL '\n' c1.data = pre ++ post →
      splitCharL '\n' c2.data = post →
      (parse_entries cats c1).map stripLS = (parse_entries cats c2).map stripLS) ∧
    (∀ (cats : List String) (content : String) (pre post : List (List Char))
       (catline nameline : List Char),
      splitCharL '\n' content.data = pre ++ catline :: nameline :: post →
      (∀ l ∈ pre, isStopLine l = false) →
      isStopLine catline = false →
      isCategoryLine cats catline = true →
      pyStripL (catline.drop 3) ≠ [] →
      "### ".data.isPrefixOf nameline = true →
      (⟨pyStripL (nameline.drop 4)⟩ : String) ∈
        (parse_entries cats content).map Entry.name) := by
  refine ⟨?_, ?_, ?_⟩
  · intro cats c1 c2 pre post hd hhd h1 h2
    unfold parse_entries
    rw [h1, h2]
    exact parseLines_unrelated cats hhd pre post 0 0 none none none [] [] rfl rfl
  · intro cats c1 c2 pre post hpre h1 h2
    unfold parse_entries
    rw [h1, h2]
    exact parseLines_skip_prefix cats pre hpre post 0 0
  · intro cats content pre post catline nameline hsplit hprenostop hcatstop hcat hnonempty hname
    unfold parse_entries
    rw [hsplit]
    obtain ⟨cat2, cur2, acc2, he⟩ :=
      parseLines_through cats pre hprenostop (catline :: nameline :: post) 0 none none []
    rw [he]
    have hc := hcat
    simp only [isCategoryLine, Bool.and_eq_true, Bool.not_eq_true'] at hc
    have hAB : ("## ".data.isPrefixOf catline && !("### ".data.isPrefixOf catline)) = true := by
      simp [hc.1.1, hc.1.2]
    have hstopany :
        (stopSections.any fun s => decide (s.data = pyStripL (catline.drop 3))) = false := by
      have hs := hcatstop
      simp only [isStopLine] at hs
      rw [hAB] at hs
      simpa using hs
    simp only [parseLines]
    rw [if_pos hAB, if_neg (by simp [hstopany]), if_pos hc.2]
    have hno2 : ("## ".data.isPrefixOf nameline) = false := hash3_no_hash2 hname
    have ht : pyTruthy (some ⟨(pyStripL (catline.drop 3)).map Char.toUpper⟩) = true := by
      simp only [pyTruthy, Bool.not_eq_true', List.isEmpty_eq_false]
      simpa using hnonempty
    rw [if_neg (by simp [hno2]), if_pos (by simp [hname, ht])]
    obtain ⟨rest, hnames⟩ := parseLines_names cats post (0 + pre.length + 1 + 1)
      (some ⟨(pyStripL (catline.drop 3)).map Char.toUpper⟩)
      (some (newEntry ⟨pyStripL (nameline.drop 4)⟩
        ((some (⟨(pyStripL (catline.drop 3)).map Char.toUpper⟩ : String)).getD "")
        (0 + pre.length + 1))) (acc2 ++ cur2.toList)
    rw [hnames]
    simp [newEntry]

/-- Witness for C9: an unrelated heading is transparent; entries before
any category heading are ignored; an entry after a category heading is
returned. -/
theorem parse_entries_unrelated_headings_witness :
    (parse_entries ["WORK"] "## WORK\n### Kept\n## Random Section\n### AlsoKept").map stripLS =
      (parse_entries ["WORK"] "## WORK\n### Kept\n### AlsoKept").map stripLS ∧
    (parse_entries ["WORK"] "### Lost\n## WORK\n### Kept").map stripLS =
      (parse_entries ["WORK"] "## WORK\n### Kept").map stripLS ∧
    (("Kept" : String) ∈ (parse_entries ["WORK"] "## WORK\n### Kept").map Entry.name) := by
  refine ⟨?_, ?_, ?_⟩
  · exact parse_entries_unrelated_headings.1 ["WORK"] _ _
      ["## WORK".data, "### Kept".data] ["### AlsoKept".data] "## Random Section".data
      (by decide) (by decide) (by decide)
  · exact parse_entries_unrelated_headings.2.1 ["WORK"] _ _
      ["### Lost".data] ["## WORK".data, "### Kept".data]
      (by decide) (by decide) (by decide)
  · exact parse_entries_unrelated_headings.2.2 ["WORK"] _ [] []
      "## WORK".data "### Kept".data (by decide) (by decide) (by decide) (by decide)
      (by decide) (by decide)

/-- Claim C10: `parse_port_range` does not validate that a hyphenated range
is ordered: for `end < start` it still returns
`(start, end - start + 1)`, a zero-or-negative range size. -/
theorem parse_port_range_unordered (a b : Nat) (h : b < a) :
    parse_port_range (pyNatRepr a ++ '-' :: pyNatRepr b) =
      (some (a : Int), some ((b : Int) - (a : Int) + 1)) ∧
    ((b : Int) - (a : Int) + 1 ≤ 0) :=
  ⟨parse_port_range_hyphen a b, by omega⟩

/-- Witness for C10 at the spec's example `3009-3000`. -/
theorem parse_port_range_unordered_witness :
    parse_port_range "3009-3000".data = (some 3009, some (-8)) ∧
      ((3000 : Int) - (3009 : Int) + 1 ≤ 0) := by
  have h := parse_port_range_unordered 3009 3000 (by norm_num)
  constructor
  · have he : "3009-3000".data = pyNatRepr 3009 ++ '-' :: pyNatRepr 3000 := by decide
    rw [he, h.1]
    norm_num
  · exact h.2
